import Mathlib

/-!
Shallow embedding of the core of the project-kisan repository:
the retrieval subsystem backing the scheme-search tool
(`mods/tools/agro_scheme_analyser.py`) and the tool-orchestrating
conversation loop (`kisan_agent.py`, `app.py`).

External collaborators (OpenAI completions, the embedding service, the
weaviate vector index) are passed in as function parameters; Python
exceptions are modelled with `Except`; Python `float` distances are
modelled as rationals; machine-level details that no claim depends on
(connection setup, printing, timestamps of the audit log) are omitted.
-/

namespace ProjectKisan

/-! ## Python string primitives used by `rewrite_query` -/

/-- Python `str.strip(chars)`: drop the characters satisfying `p` from both
ends of the string. -/
def pyStripPred (p : Char → Bool) (s : String) : String :=
  String.mk (((s.data.dropWhile p).reverse.dropWhile p).reverse)

/-- The ASCII whitespace characters that Python `str.strip()` removes. -/
def isPySpace (c : Char) : Bool :=
  c = ' ' || c = '\t' || c = '\n' || c = '\r' || c = '\x0b' || c = '\x0c'

/-- Python `str.strip()` with no argument. -/
def pyStrip (s : String) : String := pyStripPred isPySpace s

/-- Python `str.split` on a newline separator, over the character list:
every newline separates, empty pieces are kept, the empty string gives one
empty piece. -/
def splitOnNl : List Char → List (List Char)
  | [] => [[]]
  | c :: cs =>
      if c = '\n' then [] :: splitOnNl cs
      else
        match splitOnNl cs with
        | [] => [[c]]
        | piece :: rest => (c :: piece) :: rest

/-- Python `content.split` with a newline argument, on strings. -/
def pySplitLines (s : String) : List String := (splitOnNl s.data).map String.mk

/-! ## Retrieval subsystem (`AgroSchemeAnalyserTool`) -/

/-- One search hit as assembled by `query_db`: the stored document fields
other than `scheme_id` are carried along unchanged by every later stage, so
only the identity and the vector distance are modelled. -/
structure SchemeResult where
  scheme_id : String
  distance : ℚ
deriving DecidableEq, Repr

/-- `AgroSchemeAnalyserTool.rewrite_query`.  The chat-completion call on the
interpolated prompt is abstracted as `expand query`; its `.ok` payload is the
raw message content, which the source then strips, splits on newlines,
filters for non-blank lines, and cleans per line
(strip dash and space characters, strip whitespace, strip double quotes).
On any exception the original query is
returned as a singleton list. -/
def rewrite_query (expand : String → Except String String)
    (query : String) : List String :=
  match expand query with
  | .ok content =>
      let expanded_queries := pySplitLines (pyStrip content)
      (expanded_queries.filter (fun q => !(pyStrip q).data.isEmpty)).map
        (fun q => pyStripPred (fun c => c = '"')
          (pyStrip (pyStripPred (fun c => c = '-' || c = ' ') q)))
  | .error _ => [query]

/-- `AgroSchemeAnalyserTool.query_db`: embed the query and run a
`near_vector` search with `limit = top_k`.  The embedding service composed
with the index is abstracted as `idx : String → List SchemeResult`, the full
distance-ranked hit list for a query, of which the `limit` keeps a prefix. -/
def query_db (idx : String → List SchemeResult) (query : String)
    (top_k : Nat) : List SchemeResult :=
  (idx query).take top_k

/-- One step of building the Python dict
keyed by scheme_id over all_results: assigning to an existing key
replaces its value in place, a new key is appended at the end. -/
def dictInsertResult : List SchemeResult → SchemeResult → List SchemeResult
  | [], r => [r]
  | x :: m, r =>
      if x.scheme_id = r.scheme_id then r :: m else x :: dictInsertResult m r

/-- The whole dict comprehension followed by `.values()`: keys appear in
first-occurrence order, each carrying the value of its last assignment. -/
def dedupeById (rs : List SchemeResult) : List SchemeResult :=
  rs.foldl dictInsertResult []

/-- Python list slicing `l[:top_k]` for an `int` bound: a non-negative bound
keeps a prefix, a negative bound drops `|top_k|` elements from the end. -/
def pyslice (l : List α) (k : Int) : List α :=
  if 0 ≤ k then l.take k.toNat
  else l.take (l.length - (-k).toNat)

/-- The literal `top_k=3` passed to `query_db` for every subquery inside
`search_schemes`. -/
def PER_SUBQUERY_LIMIT : Nat := 3

/-- The `all_results` accumulator of `search_schemes`: the concatenation of
the per-subquery hit lists, in subquery order. -/
def mergedResults (expand : String → Except String String)
    (idx : String → List SchemeResult) (query : String) : List SchemeResult :=
  (rewrite_query expand query).flatMap
    (fun subquery => query_db idx subquery PER_SUBQUERY_LIMIT)

/-- The `unique_results` value of `search_schemes`. -/
def uniqueResults (expand : String → Except String String)
    (idx : String → List SchemeResult) (query : String) : List SchemeResult :=
  dedupeById (mergedResults expand idx query)

/-- The comparison induced by the sort key lambda, x.distance. -/
def distLe (a b : SchemeResult) : Bool := decide (a.distance ≤ b.distance)

/-- The call to sorted on unique_results with the distance key: the Python
sort is stable, as is
`List.mergeSort`. -/
def rankedResults (expand : String → Except String String)
    (idx : String → List SchemeResult) (query : String) : List SchemeResult :=
  (uniqueResults expand idx query).mergeSort distLe

/-- `AgroSchemeAnalyserTool.search_schemes`: expand the query, search each
subquery with `limit = 3`, deduplicate by `scheme_id` via the dict
comprehension, sort ascending by distance, and slice with `[:top_k]`. -/
def search_schemes (expand : String → Except String String)
    (idx : String → List SchemeResult) (query : String)
    (top_k : Int) : List SchemeResult :=
  pyslice (rankedResults expand idx query) top_k

/-- Lexicographic order on character lists, for the spec-side comparison. -/
def lexLe : List Char → List Char → Bool
  | [], _ => true
  | _ :: _, [] => false
  | c :: cs, d :: ds => if c = d then lexLe cs ds else decide (c < d)

/-- Modelled from the spec (ranking step of the Retrieval Subsystem): sort
ascending by distance, ties broken by original document id, lexicographic.
Stated only to compare the specified ranking against the ranking of the
source, which the source does not implement. -/
def specTieLe (a b : SchemeResult) : Bool :=
  if a.distance = b.distance then lexLe a.scheme_id.data b.scheme_id.data
  else decide (a.distance ≤ b.distance)

/-! ## Orchestration loop (`ProjectKisanAgent`) -/

/-- One entry of `assistant_message.tool_calls`: the `type` field is the
constant `"function"`, `arguments` is the raw JSON string. -/
structure ToolCall where
  id : String
  name : String
  arguments : String
deriving DecidableEq, Repr

/-- The decision message returned by the first completions call in `chat`:
`content` may be `None`, `tool_calls` may be absent or empty (both falsy in
the `if assistant_message.tool_calls:` test, modelled as `[]`). -/
structure DecisionMsg where
  content : Option String
  tool_calls : List ToolCall
deriving DecidableEq, Repr

/-- One message dict of `conversation_history`. -/
inductive Msg
  | system (content : String)
  | user (content : String)
  | assistant (content : Option String)
  | assistantCalls (tool_calls : List ToolCall)
  | tool (tool_call_id : String) (content : String)
deriving DecidableEq, Repr

/-- The `tool_call_id` field of a message, present only on `tool` messages. -/
def Msg.toolCallId : Msg → Option String
  | .tool i _ => some i
  | _ => none

/-- A `tool_registry` value: the `(instance, method_name)` pair, with the
instance object abstracted by a string identity. -/
structure RegEntry where
  owner : String
  method : String
deriving DecidableEq, Repr

/-- Python `dict.get`-style lookup in the assoc-list model of a dict. -/
def dictLookup (m : List (String × RegEntry)) (k : String) : Option RegEntry :=
  (m.find? (fun p => p.1 = k)).map (·.2)

/-- Python dict assignment `d[k] = v` on the assoc-list model: an existing
key keeps its position and gets the new value, a new key is appended. -/
def dictAssign : List (String × RegEntry) → String → RegEntry →
    List (String × RegEntry)
  | [], k, v => [(k, v)]
  | p :: m, k, v =>
      if p.1 = k then (k, v) :: m else p :: dictAssign m k v

/-- `ProjectKisanAgent._register_tool_class`: for every decorated method
name of the class, assign `tool_registry[method_name] = (instance,
method_name)`. -/
def register_tool_class (reg : List (String × RegEntry))
    (method_names : List String) (inst : String) :
    List (String × RegEntry) :=
  method_names.foldl (fun r m => dictAssign r m ⟨inst, m⟩) reg

/-- `ProjectKisanAgent._execute_tool`: `self.tool_registry[tool_name]`
raises `KeyError` for an unknown name; the `getattr`, the keyword-argument
call (whose `AttributeError`/`TypeError` are re-raised as `Exception`, any
other tool error propagates as-is) and the `json.dumps` of the result are
abstracted as `invoke entry arguments`. -/
def execute_tool (registry : List (String × RegEntry))
    (invoke : RegEntry → String → Except String String)
    (tool_name : String) (arguments : String) : Except String String :=
  match dictLookup registry tool_name with
  | none => .error ("KeyError: " ++ tool_name)
  | some entry => invoke entry arguments

/-- The `for tool_call in assistant_message.tool_calls:` loop of `chat`.
Returns the `tool` messages appended so far, the trace of requests on which
`_execute_tool` was entered, and the first uncaught exception if any; the
loop stops at the first failure. -/
def runToolCalls (registry : List (String × RegEntry))
    (invoke : RegEntry → String → Except String String) :
    List ToolCall → List Msg × List ToolCall × Option String
  | [] => ([], [], none)
  | c :: rest =>
      match execute_tool registry invoke c.name c.arguments with
      | .error e => ([], [c], some e)
      | .ok r =>
          (Msg.tool c.id r :: (runToolCalls registry invoke rest).1,
           c :: (runToolCalls registry invoke rest).2.1,
           (runToolCalls registry invoke rest).2.2)

/-- The value returned by `chat`: a dict literal
`{"role": "KisanAgent", "content": final_message}` on the tool path, the
bare (possibly `None`) `assistant_message.content` on the direct path. -/
inductive ChatReturn
  | dictRC (role : String) (content : Option String)
  | textRC (content : Option String)
deriving DecidableEq, Repr

/-- Python subscripting `value["content"]` as performed by the `/chat`
endpoint in `app.py`: key lookup on the dict, a `TypeError` on a string
(or `None`). -/
def pySubscript (r : ChatReturn) (key : String) : Except String String :=
  match r with
  | .dictRC role content =>
      if key = "role" then .ok role
      else if key = "content" then
        match content with
        | some c => .ok c
        | none => .error "value None"
      else .error ("KeyError: " ++ key)
  | .textRC _ => .error "TypeError: string indices must be integers"

/-- The observable outcome of one `chat` turn: the final
`conversation_history`, the requests actually handed to `_execute_tool`,
the number of synthesis (second completions) calls made, and either the
returned value or the uncaught exception. -/
structure TurnOutcome where
  history : List Msg
  invoked : List ToolCall
  synthCalls : Nat
  result : Except String ChatReturn
deriving Repr

/-- `ProjectKisanAgent.chat` for a text-only turn.  The first completions
call (the decision) is abstracted by its result `decision`; the second
completions call (synthesis) is abstracted as `synth` applied to the
conversation sent to it.  History appends happen in source order and, as in
Python, the appends made before an exception persist. -/
def chat (registry : List (String × RegEntry))
    (invoke : RegEntry → String → Except String String)
    (synth : List Msg → String) (history : List Msg) (user_message : String)
    (decision : DecisionMsg) : TurnOutcome :=
  let h1 := history ++ [Msg.user user_message]
  if decision.tool_calls = [] then
    { history := h1 ++ [Msg.assistant decision.content]
      invoked := []
      synthCalls := 0
      result := .ok (.textRC decision.content) }
  else
    let h2 := h1 ++ [Msg.assistantCalls decision.tool_calls]
    let r := runToolCalls registry invoke decision.tool_calls
    match r.2.2 with
    | some e =>
        { history := h2 ++ r.1, invoked := r.2.1, synthCalls := 0,
          result := .error e }
    | none =>
        let h3 := h2 ++ r.1
        let final_message := synth h3
        { history := h3 ++ [Msg.assistant (some final_message)]
          invoked := r.2.1
          synthCalls := 1
          result := .ok (.dictRC "KisanAgent" (some final_message)) }

/-! ## Concrete fixtures used by counterexamples and witnesses -/

/-- Expansion service returning two reformulations, one per line. -/
def exExpandAB : String → Except String String := fun _ => .ok "a\nb"

/-- Index hitting the same document from subquery a at distance 1/10 and
from subquery b at distance 3/10. -/
def exIdxAB : String → List SchemeResult := fun q =>
  if q = "a" then [⟨"doc1", mkRat 1 10⟩]
  else if q = "b" then [⟨"doc1", mkRat 3 10⟩] else []

/-- Expansion service that always raises. -/
def exErrExpand : String → Except String String :=
  fun _ => .error "expansion service down"

/-- Index returning two distance ties whose ids are not in lexicographic
order. -/
def tieIdx : String → List SchemeResult := fun _ => [⟨"b", mkRat 1 2⟩, ⟨"a", mkRat 1 2⟩]

/-- The same two hits as `tieIdx` in the opposite order. -/
def tieIdxRev : String → List SchemeResult := fun _ => [⟨"a", mkRat 1 2⟩, ⟨"b", mkRat 1 2⟩]

/-- Index holding five distinct documents for every query. -/
def fiveIdx : String → List SchemeResult := fun _ =>
  [⟨"d1", mkRat 1 10⟩, ⟨"d2", mkRat 2 10⟩, ⟨"d3", mkRat 3 10⟩, ⟨"d4", mkRat 4 10⟩, ⟨"d5", mkRat 5 10⟩]

/-- Single-document index. -/
def oneDocIdx : String → List SchemeResult := fun _ => [⟨"doc1", mkRat 1 10⟩]

/-- A registry holding the single method name t1. -/
def exReg : List (String × RegEntry) := register_tool_class [] ["t1"] "inst1"

/-- Invocation that succeeds on method t1 and fails otherwise. -/
def exInvoke : RegEntry → String → Except String String :=
  fun e _ =>
    if e.method = "t1" then .ok ("res-" ++ e.owner) else .error "tool failed"

/-- Synthesis service returning a fixed answer. -/
def exSynth : List Msg → String := fun _ => "final"

/-! ## Registry lemmas and claim C8 -/

theorem dictLookup_dictAssign_self (m : List (String × RegEntry)) (k : String)
    (v : RegEntry) : dictLookup (dictAssign m k v) k = some v := by
  induction m with
  | nil => simp [dictAssign, dictLookup]
  | cons p m ih =>
      by_cases h : p.1 = k
      · simp [dictAssign, h, dictLookup]
      · simp only [dictAssign, if_neg h]
        simpa [dictLookup, List.find?_cons, h] using ih

theorem dictLookup_dictAssign_ne (m : List (String × RegEntry)) (k k2 : String)
    (v : RegEntry) (h : k ≠ k2) :
    dictLookup (dictAssign m k v) k2 = dictLookup m k2 := by
  induction m with
  | nil => simp [dictAssign, dictLookup, h]
  | cons p m ih =>
      by_cases hp : p.1 = k
      · have hne : p.1 ≠ k2 := by rw [hp]; exact h
        simp [dictAssign, hp, dictLookup, List.find?_cons, h, hne]
      · by_cases h2 : p.1 = k2
        · simp only [dictAssign, if_neg hp]
          simp [dictLookup, List.find?_cons, h2]
        · simp only [dictAssign, if_neg hp]
          simpa [dictLookup, List.find?_cons, h2] using ih

theorem register_tool_class_cons (reg : List (String × RegEntry))
    (m : String) (ms : List String) (inst : String) :
    register_tool_class reg (m :: ms) inst =
      register_tool_class (dictAssign reg m ⟨inst, m⟩) ms inst := rfl

theorem register_tool_class_lookup (ms : List String) :
    ∀ (reg : List (String × RegEntry)) (inst k : String),
    dictLookup (register_tool_class reg ms inst) k =
      if k ∈ ms then some ⟨inst, k⟩ else dictLookup reg k := by
  induction ms with
  | nil => intro reg inst k; simp [register_tool_class]
  | cons m ms ih =>
      intro reg inst k
      rw [register_tool_class_cons, ih]
      by_cases hk : k ∈ ms
      · simp [hk]
      · by_cases hm : k = m
        · subst hm; simp [hk, dictLookup_dictAssign_self]
        · simp [hk, hm,
            dictLookup_dictAssign_ne reg m k ⟨inst, m⟩ (fun he => hm he.symm)]

/-- C8 (amended): registering a tool under a name that is already present in
the registry does not fail; the plain dict assignment silently overwrites
the existing entry, so after any sequence of class registrations each name
maps to the `(instance, method_name)` pair of its most recent registration
(and names not re-registered keep their earlier entry). -/
theorem register_silent_overwrite (reg : List (String × RegEntry))
    (method_names : List String) (inst k : String) :
    dictLookup (register_tool_class reg method_names inst) k =
      if k ∈ method_names then some ⟨inst, k⟩ else dictLookup reg k :=
  register_tool_class_lookup method_names reg inst k

/-- C8 counterexample: registering the method name execute for a second
tool instance neither fails nor keeps the first entry — the registry ends
up mapping execute to the second instance. -/
theorem register_duplicate_overwrites :
    dictLookup (register_tool_class
        (register_tool_class [] ["execute"] "market_tool")
        ["execute"] "disease_tool") "execute" =
      some ⟨"disease_tool", "execute"⟩ ∧
    (⟨"disease_tool", "execute"⟩ : RegEntry) ≠ ⟨"market_tool", "execute"⟩ := by
  exact ⟨rfl, by decide⟩

/-! ## Orchestration-loop lemmas and claims C2, C3, C10 -/

theorem runToolCalls_of_ok (registry : List (String × RegEntry))
    (invoke : RegEntry → String → Except String String) (tcs : List ToolCall)
    (h : (runToolCalls registry invoke tcs).2.2 = none) :
    (runToolCalls registry invoke tcs).1.map Msg.toolCallId =
      tcs.map (fun c => some c.id) ∧
    (runToolCalls registry invoke tcs).2.1 = tcs := by
  induction tcs with
  | nil => simp [runToolCalls]
  | cons c rest ih =>
      cases hx : execute_tool registry invoke c.name c.arguments with
      | error e => simp [runToolCalls, hx] at h
      | ok r =>
          have h2 : (runToolCalls registry invoke rest).2.2 = none := by
            simpa [runToolCalls, hx] using h
          have h3 := ih h2
          simp [runToolCalls, hx, Msg.toolCallId, h3.1, h3.2]

/-- C2: when the decision service returns a non-empty batch of tool-call
requests and every invocation succeeds, `chat` appends one assistant
message carrying the full ordered batch, then exactly one `tool` message
per request, in request order, each with `tool_call_id` equal to the id of
the corresponding request, and makes the synthesis call exactly once,
appending its text as the final assistant message. -/
theorem chat_tool_batch_shape (registry : List (String × RegEntry))
    (invoke : RegEntry → String → Except String String)
    (synth : List Msg → String) (history : List Msg) (user_message : String)
    (decision : DecisionMsg) (hne : decision.tool_calls ≠ [])
    (hok : (runToolCalls registry invoke decision.tool_calls).2.2 = none) :
    ∃ toolMsgs final_message,
      (chat registry invoke synth history user_message decision).history =
        history ++
          [Msg.user user_message, Msg.assistantCalls decision.tool_calls] ++
          toolMsgs ++ [Msg.assistant (some final_message)] ∧
      toolMsgs.map Msg.toolCallId =
        decision.tool_calls.map (fun c => some c.id) ∧
      (chat registry invoke synth history user_message decision).invoked =
        decision.tool_calls ∧
      (chat registry invoke synth history user_message decision).synthCalls
        = 1 ∧
      (chat registry invoke synth history user_message decision).result =
        .ok (.dictRC "KisanAgent" (some final_message)) := by
  refine ⟨(runToolCalls registry invoke decision.tool_calls).1,
    synth (history ++ [Msg.user user_message] ++
      [Msg.assistantCalls decision.tool_calls] ++
      (runToolCalls registry invoke decision.tool_calls).1),
    ?_, (runToolCalls_of_ok registry invoke _ hok).1, ?_, ?_, ?_⟩ <;>
    simp [chat, hne, hok, (runToolCalls_of_ok registry invoke _ hok).2]

/-- Witness for C2: a concrete two-call batch against the fixture registry. -/
theorem chat_tool_batch_shape_witness :
    ∃ toolMsgs final_message,
      (chat exReg exInvoke exSynth [Msg.system "sys"] "hi"
          ⟨none, [⟨"id1", "t1", "args1"⟩, ⟨"id2", "t1", "args2"⟩]⟩).history =
        [Msg.system "sys"] ++
          [Msg.user "hi", Msg.assistantCalls
            [⟨"id1", "t1", "args1"⟩, ⟨"id2", "t1", "args2"⟩]] ++
          toolMsgs ++ [Msg.assistant (some final_message)] ∧
      toolMsgs.map Msg.toolCallId =
        ([⟨"id1", "t1", "args1"⟩, ⟨"id2", "t1", "args2"⟩] : List ToolCall).map
          (fun c => some c.id) ∧
      (chat exReg exInvoke exSynth [Msg.system "sys"] "hi"
          ⟨none, [⟨"id1", "t1", "args1"⟩, ⟨"id2", "t1", "args2"⟩]⟩).invoked =
        [⟨"id1", "t1", "args1"⟩, ⟨"id2", "t1", "args2"⟩] ∧
      (chat exReg exInvoke exSynth [Msg.system "sys"] "hi"
          ⟨none, [⟨"id1", "t1", "args1"⟩, ⟨"id2", "t1", "args2"⟩]⟩).synthCalls
        = 1 ∧
      (chat exReg exInvoke exSynth [Msg.system "sys"] "hi"
          ⟨none, [⟨"id1", "t1", "args1"⟩, ⟨"id2", "t1", "args2"⟩]⟩).result =
        .ok (.dictRC "KisanAgent" (some final_message)) :=
  chat_tool_batch_shape exReg exInvoke exSynth [Msg.system "sys"] "hi"
    ⟨none, [⟨"id1", "t1", "args1"⟩, ⟨"id2", "t1", "args2"⟩]⟩
    (by decide) (by decide)

theorem runToolCalls_of_error (registry : List (String × RegEntry))
    (invoke : RegEntry → String → Except String String) (pre : List ToolCall)
    (c : ToolCall) (post : List ToolCall) (e : String)
    (hpre : ∀ c2 ∈ pre,
      ∃ r, execute_tool registry invoke c2.name c2.arguments = .ok r)
    (hc : execute_tool registry invoke c.name c.arguments = .error e) :
    (runToolCalls registry invoke (pre ++ c :: post)).2.1 = pre ++ [c] ∧
    (runToolCalls registry invoke (pre ++ c :: post)).2.2 = some e := by
  induction pre with
  | nil => simp [runToolCalls, hc]
  | cons p pre ih =>
      obtain ⟨r, hr⟩ := hpre p (by simp)
      have ih2 := ih (fun c2 h2 => hpre c2 (by simp [h2]))
      simp [runToolCalls, hr, ih2.1, ih2.2]

/-- C3: if a tool invocation inside a batch fails (unknown name, parameter
mismatch, or the tool raising), `chat` enters `_execute_tool` for the
requests up to and including the failing one only, makes no synthesis call,
and the exception propagates out of the turn unmodified. -/
theorem chat_fail_fast (registry : List (String × RegEntry))
    (invoke : RegEntry → String → Except String String)
    (synth : List Msg → String) (history : List Msg) (user_message : String)
    (decision : DecisionMsg) (pre : List ToolCall) (c : ToolCall)
    (post : List ToolCall) (e : String)
    (hbatch : decision.tool_calls = pre ++ c :: post)
    (hpre : ∀ c2 ∈ pre,
      ∃ r, execute_tool registry invoke c2.name c2.arguments = .ok r)
    (hc : execute_tool registry invoke c.name c.arguments = .error e) :
    (chat registry invoke synth history user_message decision).invoked =
      pre ++ [c] ∧
    (chat registry invoke synth history user_message decision).synthCalls
      = 0 ∧
    (chat registry invoke synth history user_message decision).result =
      .error e := by
  have h := runToolCalls_of_error registry invoke pre c post e hpre hc
  have hne : decision.tool_calls ≠ [] := by simp [hbatch]
  rw [← hbatch] at h
  simp [chat, hne, h.1, h.2]

/-- Witness for C3: the second of three requests names an unregistered
tool; the third is never attempted and no synthesis happens. -/
theorem chat_fail_fast_witness :
    (chat exReg exInvoke exSynth [Msg.system "sys"] "hi"
        ⟨none, [⟨"id1", "t1", "a1"⟩, ⟨"id2", "bad", "a2"⟩,
          ⟨"id3", "t1", "a3"⟩]⟩).invoked =
      [⟨"id1", "t1", "a1"⟩] ++ [⟨"id2", "bad", "a2"⟩] ∧
    (chat exReg exInvoke exSynth [Msg.system "sys"] "hi"
        ⟨none, [⟨"id1", "t1", "a1"⟩, ⟨"id2", "bad", "a2"⟩,
          ⟨"id3", "t1", "a3"⟩]⟩).synthCalls = 0 ∧
    (chat exReg exInvoke exSynth [Msg.system "sys"] "hi"
        ⟨none, [⟨"id1", "t1", "a1"⟩, ⟨"id2", "bad", "a2"⟩,
          ⟨"id3", "t1", "a3"⟩]⟩).result = .error "KeyError: bad" :=
  chat_fail_fast exReg exInvoke exSynth [Msg.system "sys"] "hi"
    ⟨none, [⟨"id1", "t1", "a1"⟩, ⟨"id2", "bad", "a2"⟩, ⟨"id3", "t1", "a3"⟩]⟩
    [⟨"id1", "t1", "a1"⟩] ⟨"id2", "bad", "a2"⟩ [⟨"id3", "t1", "a3"⟩]
    "KeyError: bad" rfl
    (by intro c2 h2
        simp only [List.mem_singleton] at h2
        subst h2
        exact ⟨"res-inst1", rfl⟩)
    rfl

/-- C10: a turn that dispatched tools returns the dict with keys role and
content, on which subscripting with content yields the answer; a
direct-answer turn returns the bare text, on which the subscripting done by
the HTTP layer never yields the answer text (it raises a TypeError). -/
theorem chat_return_shape (registry : List (String × RegEntry))
    (invoke : RegEntry → String → Except String String)
    (synth : List Msg → String) (history : List Msg) (user_message : String)
    (decision : DecisionMsg) :
    (decision.tool_calls = [] →
      (chat registry invoke synth history user_message decision).result =
        .ok (.textRC decision.content) ∧
      ∀ s, pySubscript (.textRC decision.content) "content" ≠ .ok s) ∧
    (decision.tool_calls ≠ [] →
      (runToolCalls registry invoke decision.tool_calls).2.2 = none →
      ∃ m, (chat registry invoke synth history user_message decision).result
          = .ok (.dictRC "KisanAgent" (some m)) ∧
        pySubscript (.dictRC "KisanAgent" (some m)) "content" = .ok m) := by
  constructor
  · intro h
    exact ⟨by simp [chat, h], fun s => by simp [pySubscript]⟩
  · intro hne hok
    refine ⟨synth (history ++ [Msg.user user_message] ++
      [Msg.assistantCalls decision.tool_calls] ++
      (runToolCalls registry invoke decision.tool_calls).1),
      by simp [chat, hne, hok], rfl⟩

/-- Witness for C10: a direct-answer turn returns the bare string, and the
subscript access of the HTTP layer fails on it. -/
theorem chat_return_shape_witness :
    (chat exReg exInvoke exSynth [Msg.system "sys"] "hi"
        ⟨some "direct", []⟩).result = .ok (.textRC (some "direct")) ∧
    pySubscript (.textRC (some "direct")) "content" ≠ .ok "direct" := by
  have h := (chat_return_shape exReg exInvoke exSynth [Msg.system "sys"]
    "hi" ⟨some "direct", []⟩).1 rfl
  exact ⟨h.1, h.2 "direct"⟩

/-! ## Deduplication lemmas and claim C1 -/

theorem keys_dictInsertResult (m : List SchemeResult) (r : SchemeResult) :
    (dictInsertResult m r).map (·.scheme_id) =
      if r.scheme_id ∈ m.map (·.scheme_id) then m.map (·.scheme_id)
      else m.map (·.scheme_id) ++ [r.scheme_id] := by
  induction m with
  | nil => simp [dictInsertResult]
  | cons x m ih =>
      by_cases h : x.scheme_id = r.scheme_id
      · simp [dictInsertResult, h]
      · by_cases hm : r.scheme_id ∈ m.map (·.scheme_id)
        · simp [dictInsertResult, h, hm, ih, Ne.symm h]
        · simp [dictInsertResult, h, hm, ih, Ne.symm h]

theorem nodup_keys_dictInsertResult (m : List SchemeResult) (r : SchemeResult)
    (h : (m.map (·.scheme_id)).Nodup) :
    ((dictInsertResult m r).map (·.scheme_id)).Nodup := by
  rw [keys_dictInsertResult]
  split
  · exact h
  · next hmem => simp [List.nodup_append, h, hmem]

theorem dedupeById_concat (rs : List SchemeResult) (r : SchemeResult) :
    dedupeById (rs ++ [r]) = dictInsertResult (dedupeById rs) r := by
  simp [dedupeById, List.foldl_append]

theorem nodup_keys_dedupeById (rs : List SchemeResult) :
    ((dedupeById rs).map (·.scheme_id)).Nodup := by
  induction rs using List.reverseRecOn with
  | nil => simp [dedupeById]
  | append_singleton rs r ih =>
      rw [dedupeById_concat]
      exact nodup_keys_dictInsertResult _ _ ih

theorem filter_dictInsertResult_ne (m : List SchemeResult) (r : SchemeResult)
    (id : String) (h : r.scheme_id ≠ id) :
    (dictInsertResult m r).filter (fun x => x.scheme_id == id) =
      m.filter (fun x => x.scheme_id == id) := by
  induction m with
  | nil => simp [dictInsertResult, h]
  | cons x m ih =>
      by_cases hx : x.scheme_id = r.scheme_id
      · have hxid : x.scheme_id ≠ id := by rw [hx]; exact h
        simp [dictInsertResult, hx, List.filter_cons, h, hxid]
      · simp [dictInsertResult, hx, List.filter_cons, ih]

theorem filter_dictInsertResult_self (m : List SchemeResult) (r : SchemeResult)
    (h : (m.map (·.scheme_id)).Nodup) :
    (dictInsertResult m r).filter (fun x => x.scheme_id == r.scheme_id)
      = [r] := by
  induction m with
  | nil => simp [dictInsertResult]
  | cons x m ih =>
      rw [List.map_cons, List.nodup_cons] at h
      by_cases hx : x.scheme_id = r.scheme_id
      · have hnot : ∀ y ∈ m, ¬ (y.scheme_id == r.scheme_id) = true := by
          intro y hy hbeq
          rw [beq_iff_eq] at hbeq
          have hmem : y.scheme_id ∈ m.map (·.scheme_id) :=
            List.mem_map_of_mem _ hy
          rw [hbeq, ← hx] at hmem
          exact h.1 hmem
        simp [dictInsertResult, hx, List.filter_cons,
          List.filter_eq_nil_iff.mpr hnot]
      · simp [dictInsertResult, hx, List.filter_cons, ih h.2]

theorem filter_dedupeById (rs : List SchemeResult) (id : String) :
    (dedupeById rs).filter (fun x => x.scheme_id == id) =
      ((rs.filter (fun x => x.scheme_id == id)).getLast?).toList := by
  induction rs using List.reverseRecOn with
  | nil => simp [dedupeById]
  | append_singleton rs r ih =>
      rw [dedupeById_concat]
      by_cases h : r.scheme_id = id
      · subst h
        rw [filter_dictInsertResult_self _ _ (nodup_keys_dedupeById rs),
          List.filter_append]
        have hr : List.filter (fun x => x.scheme_id == r.scheme_id) [r]
            = [r] := by simp
        rw [hr, List.getLast?_concat]
        rfl
      · rw [filter_dictInsertResult_ne _ _ _ h, ih, List.filter_append]
        simp [List.filter_cons, h]

/-- C1 (amended): deduplication keeps, for every document id occurring in
the merged per-subquery hit lists, exactly one record — the last occurrence
in merge order (the dict comprehension assigns later hits over earlier
ones), not the smallest-distance one.  A document returned at distance 3/10
by an earlier subquery and 1/10 by a later one therefore keeps 1/10, but
the opposite arrival order keeps 3/10. -/
theorem dedup_keeps_last_occurrence (expand : String → Except String String)
    (idx : String → List SchemeResult) (query id : String)
    (h : id ∈ (mergedResults expand idx query).map (·.scheme_id)) :
    ∃ r, (uniqueResults expand idx query).filter
        (fun x => x.scheme_id == id) = [r] ∧
      ((mergedResults expand idx query).filter
        (fun x => x.scheme_id == id)).getLast? = some r := by
  obtain ⟨x, hx, hxid⟩ := List.mem_map.mp h
  have hmem : x ∈ (mergedResults expand idx query).filter
      (fun y => y.scheme_id == id) :=
    List.mem_filter.mpr ⟨hx, by simp [hxid]⟩
  cases hg : ((mergedResults expand idx query).filter
      (fun y => y.scheme_id == id)).getLast? with
  | none =>
      rw [List.getLast?_eq_none_iff] at hg
      exact absurd (hg ▸ hmem) (List.not_mem_nil x)
  | some r =>
      exact ⟨r, by rw [uniqueResults, filter_dedupeById, hg]; rfl, rfl⟩

/-- Witness for C1 at the two-subquery fixture. -/
theorem dedup_keeps_last_occurrence_witness :
    "doc1" ∈ (mergedResults exExpandAB exIdxAB "q").map (·.scheme_id) ∧
    ∃ r, (uniqueResults exExpandAB exIdxAB "q").filter
        (fun x => x.scheme_id == "doc1") = [r] ∧
      ((mergedResults exExpandAB exIdxAB "q").filter
        (fun x => x.scheme_id == "doc1")).getLast? = some r :=
  ⟨by decide,
   dedup_keeps_last_occurrence exExpandAB exIdxAB "q" "doc1" (by decide)⟩

/-- Evaluation helper: once the deduplicated set is known and already
sorted, the final sort is the identity and the result is the plain slice. -/
theorem search_schemes_eval (expand : String → Except String String)
    (idx : String → List SchemeResult) (query : String) (k : Int)
    (L : List SchemeResult) (hu : uniqueResults expand idx query = L)
    (hsorted : L.Pairwise (fun a b => distLe a b)) :
    search_schemes expand idx query k = pyslice L k := by
  simp only [search_schemes, rankedResults, hu,
    List.mergeSort_of_sorted hsorted]

/-- C1 counterexample: subquery a returns doc1 at distance 1/10 and
subquery b then returns it at 3/10; the merged, deduplicated output keeps
the later 3/10 and drops the smaller 1/10. -/
theorem dedup_not_min_counterexample :
    mergedResults exExpandAB exIdxAB "q" =
      [⟨"doc1", mkRat 1 10⟩, ⟨"doc1", mkRat 3 10⟩] ∧
    search_schemes exExpandAB exIdxAB "q" 2 = [⟨"doc1", mkRat 3 10⟩] ∧
    (⟨"doc1", mkRat 1 10⟩ : SchemeResult) ∉ search_schemes exExpandAB exIdxAB "q" 2
    := by
  have hs : search_schemes exExpandAB exIdxAB "q" 2 =
      pyslice [(⟨"doc1", mkRat 3 10⟩ : SchemeResult)] 2 :=
    search_schemes_eval _ _ _ _ _ (by decide) (by decide)
  rw [hs]
  refine ⟨by decide, by decide, by decide⟩

/-! ## Ranking lemmas and claims C5, C6 -/

theorem distLe_trans (a b c : SchemeResult) :
    distLe a b → distLe b c → distLe a c := by
  simp only [distLe, decide_eq_true_eq]
  exact le_trans

theorem distLe_total (a b : SchemeResult) : distLe a b || distLe b a := by
  simp only [distLe]
  by_cases h : a.distance ≤ b.distance
  · simp [h]
  · simp [le_of_not_le h]

/-- C5 (amended): ranking sorts the deduplicated set ascending on distance
with a stable sort — ties keep the order of the deduplicated list (first
occurrence in merge order), not lexicographic document-id order — then
truncates by the Python slice; no explicit rank field exists, a rank being
the position in the returned list. -/
theorem ranked_stable_sort (expand : String → Except String String)
    (idx : String → List SchemeResult) (query : String) (k : Int)
    (x y : SchemeResult)
    (hsub : [x, y].Sublist (uniqueResults expand idx query))
    (hdist : x.distance = y.distance) :
    [x, y].Sublist (rankedResults expand idx query) ∧
    (search_schemes expand idx query k).Pairwise
      (fun a b => a.distance ≤ b.distance) := by
  constructor
  · exact List.pair_sublist_mergeSort distLe_trans distLe_total
      (by simp [distLe, hdist]) hsub
  · have hs := List.sorted_mergeSort distLe_trans distLe_total
      (uniqueResults expand idx query)
    have hs2 : (rankedResults expand idx query).Pairwise
        (fun a b => a.distance ≤ b.distance) := by
      refine List.Pairwise.imp ?_ hs
      intro a b hab
      simpa [distLe] using hab
    have hsl : (search_schemes expand idx query k).Sublist
        (rankedResults expand idx query) := by
      unfold search_schemes pyslice
      split
      · exact List.take_sublist _ _
      · exact List.take_sublist _ _
    exact List.Pairwise.sublist hsl hs2

/-- Witness for C5: the tied pair of the fixture keeps its merge order
through ranking. -/
theorem ranked_stable_sort_witness :
    [(⟨"b", mkRat 1 2⟩ : SchemeResult), ⟨"a", mkRat 1 2⟩].Sublist
      (rankedResults exErrExpand tieIdx "q") ∧
    (search_schemes exErrExpand tieIdx "q" 2).Pairwise
      (fun a b => a.distance ≤ b.distance) := by
  have hu : uniqueResults exErrExpand tieIdx "q" =
      [⟨"b", mkRat 1 2⟩, ⟨"a", mkRat 1 2⟩] := by decide
  refine ranked_stable_sort exErrExpand tieIdx "q" 2 _ _ ?_ rfl
  rw [hu]

/-- C5 counterexample: two hits tied on distance arrive with ids out of
lexicographic order; the output keeps arrival order b, a (so the tie is not
broken by id), and feeding the same (document_id, distance) multiset in the
opposite arrival order yields a different output, so the output order is
not a function of that multiset. -/
theorem tie_break_not_lex_counterexample :
    search_schemes exErrExpand tieIdx "q" 2 =
      [⟨"b", mkRat 1 2⟩, ⟨"a", mkRat 1 2⟩] ∧
    ¬ (search_schemes exErrExpand tieIdx "q" 2).Pairwise
      (fun a b => specTieLe a b) ∧
    search_schemes exErrExpand tieIdxRev "q" 2 =
      [⟨"a", mkRat 1 2⟩, ⟨"b", mkRat 1 2⟩] ∧
    (mergedResults exErrExpand tieIdx "q").Perm
      (mergedResults exErrExpand tieIdxRev "q") := by
  have h1 : search_schemes exErrExpand tieIdx "q" 2 =
      pyslice [(⟨"b", mkRat 1 2⟩ : SchemeResult), ⟨"a", mkRat 1 2⟩] 2 :=
    search_schemes_eval _ _ _ _ _ (by decide) (by decide)
  have h2 : search_schemes exErrExpand tieIdxRev "q" 2 =
      pyslice [(⟨"a", mkRat 1 2⟩ : SchemeResult), ⟨"b", mkRat 1 2⟩] 2 :=
    search_schemes_eval _ _ _ _ _ (by decide) (by decide)
  rw [h1, h2]
  refine ⟨by decide, by decide, by decide, by decide⟩

/-- C6 (amended): for every non-negative top_k, the result distances are
non-decreasing, the result length is at most top_k, and when top_k is at
least the number of distinct documents among the merged hits the result is
exactly the deduplicated set (a permutation of it, no padding). -/
theorem search_result_bounds (expand : String → Except String String)
    (idx : String → List SchemeResult) (query : String) (k : Int)
    (hk : 0 ≤ k) :
    ((search_schemes expand idx query k).length : Int) ≤ k ∧
    (search_schemes expand idx query k).Pairwise
      (fun a b => a.distance ≤ b.distance) ∧
    (((uniqueResults expand idx query).length : Int) ≤ k →
      (search_schemes expand idx query k).Perm
        (uniqueResults expand idx query)) := by
  have hslice : search_schemes expand idx query k =
      (rankedResults expand idx query).take k.toNat := by
    simp [search_schemes, pyslice, hk]
  refine ⟨?_, ?_, ?_⟩
  · rw [hslice]
    have h1 : ((rankedResults expand idx query).take k.toNat).length ≤
        k.toNat := by simp [List.length_take]
    omega
  · have hs := List.sorted_mergeSort distLe_trans distLe_total
      (uniqueResults expand idx query)
    have hs2 : (rankedResults expand idx query).Pairwise
        (fun a b => a.distance ≤ b.distance) := by
      refine List.Pairwise.imp ?_ hs
      intro a b hab
      simpa [distLe] using hab
    rw [hslice]
    exact List.Pairwise.sublist (List.take_sublist _ _) hs2
  · intro hlen
    rw [hslice]
    have hlen2 : (rankedResults expand idx query).length ≤ k.toNat := by
      rw [rankedResults, List.length_mergeSort]
      omega
    rw [List.take_of_length_le hlen2]
    exact List.mergeSort_perm _ _

/-- Witness for C6 at top_k = 5 over a three-hit candidate set. -/
theorem search_result_bounds_witness :
    ((search_schemes exErrExpand fiveIdx "q" 5).length : Int) ≤ 5 ∧
    (search_schemes exErrExpand fiveIdx "q" 5).Pairwise
      (fun a b => a.distance ≤ b.distance) ∧
    (search_schemes exErrExpand fiveIdx "q" 5).Perm
      (uniqueResults exErrExpand fiveIdx "q") := by
  have h := search_result_bounds exErrExpand fiveIdx "q" 5 (by decide)
  exact ⟨h.1, h.2.1, h.2.2 (by decide)⟩

/-- C6 counterexample: with the negative top_k values the code accepts, a
call returns a non-empty result list whose length exceeds top_k. -/
theorem negative_topk_bounds_counterexample :
    (search_schemes exErrExpand tieIdx "q" (-1)).length = 1 ∧
    search_schemes exErrExpand tieIdx "q" (-1) ≠ [] ∧
    ¬ (((search_schemes exErrExpand tieIdx "q" (-1)).length : Int) ≤ -1)
    := by
  have hs : search_schemes exErrExpand tieIdx "q" (-1) =
      pyslice [(⟨"b", mkRat 1 2⟩ : SchemeResult), ⟨"a", mkRat 1 2⟩] (-1) :=
    search_schemes_eval _ _ _ _ _ (by decide) (by decide)
  rw [hs]
  refine ⟨by decide, by decide, by decide⟩

/-! ## Claims C4, C7, C9 -/

/-- C4 (amended): a non-positive top_k does not fail — no InvalidArgument
exists anywhere in the function.  top_k = 0 returns the empty list (slice
up to 0) and a negative top_k returns the ranked list with its last
min(length, |top_k|) entries removed (Python negative-slice semantics). -/
theorem nonpositive_topk_returns (expand : String → Except String String)
    (idx : String → List SchemeResult) (query : String) (k : Int)
    (hk : k ≤ 0) :
    (k = 0 → search_schemes expand idx query k = []) ∧
    (k < 0 → (search_schemes expand idx query k).length =
      (rankedResults expand idx query).length - (-k).toNat) := by
  constructor
  · intro h
    subst h
    simp [search_schemes, pyslice]
  · intro h
    have hnk : ¬ (0 ≤ k) := by omega
    have hsub : (rankedResults expand idx query).length - (-k).toNat ≤
        (rankedResults expand idx query).length := Nat.sub_le _ _
    simp [search_schemes, pyslice, hnk, List.length_take,
      Nat.min_eq_left hsub]

/-- Witness for C4 at top_k = 0 and top_k = -1. -/
theorem nonpositive_topk_returns_witness :
    search_schemes exErrExpand tieIdx "q" 0 = [] ∧
    (search_schemes exErrExpand tieIdx "q" (-1)).length =
      (rankedResults exErrExpand tieIdx "q").length - 1 := by
  refine ⟨(nonpositive_topk_returns exErrExpand tieIdx "q" 0
    (by decide)).1 rfl, ?_⟩
  have h := (nonpositive_topk_returns exErrExpand tieIdx "q" (-1)
    (by decide)).2 (by decide)
  simpa using h

/-- C4 counterexample: top_k = 0 and top_k = -1 both return plain result
lists — an empty one and a one-element one — instead of failing with
InvalidArgument. -/
theorem nonpositive_topk_counterexample :
    search_schemes exErrExpand tieIdx "q" 0 = [] ∧
    search_schemes exErrExpand tieIdx "q" (-1) = [⟨"b", mkRat 1 2⟩] := by
  have h0 : search_schemes exErrExpand tieIdx "q" 0 =
      pyslice [(⟨"b", mkRat 1 2⟩ : SchemeResult), ⟨"a", mkRat 1 2⟩] 0 :=
    search_schemes_eval _ _ _ _ _ (by decide) (by decide)
  have h1 : search_schemes exErrExpand tieIdx "q" (-1) =
      pyslice [(⟨"b", mkRat 1 2⟩ : SchemeResult), ⟨"a", mkRat 1 2⟩] (-1) :=
    search_schemes_eval _ _ _ _ _ (by decide) (by decide)
  rw [h0, h1]
  refine ⟨by decide, by decide⟩

/-- C7: if the expansion service raises, rewrite_query returns exactly the
one-element list holding the original query unmodified, and retrieval
proceeds over that single subquery instead of aborting — the whole search
reduces to the pipeline applied to the original query alone. -/
theorem rewrite_query_fallback (expand : String → Except String String)
    (idx : String → List SchemeResult) (query : String) (k : Int)
    (msg : String) (h : expand query = .error msg) :
    rewrite_query expand query = [query] ∧
    search_schemes expand idx query k =
      pyslice ((dedupeById (query_db idx query
        PER_SUBQUERY_LIMIT)).mergeSort distLe) k := by
  have h1 : rewrite_query expand query = [query] := by
    simp [rewrite_query, h]
  refine ⟨h1, ?_⟩
  simp [search_schemes, rankedResults, uniqueResults, mergedResults, h1]

/-- Witness for C7: with expansion forced to fail, a search for crop
insurance against a single-document index still returns that document. -/
theorem rewrite_query_fallback_witness :
    rewrite_query exErrExpand "crop insurance Karnataka" =
      ["crop insurance Karnataka"] ∧
    search_schemes exErrExpand oneDocIdx "crop insurance Karnataka" 2 =
      [⟨"doc1", mkRat 1 10⟩] := by
  have h := rewrite_query_fallback exErrExpand oneDocIdx
    "crop insurance Karnataka" 2 "expansion service down" rfl
  refine ⟨h.1, ?_⟩
  rw [h.2]
  have hd : dedupeById (query_db oneDocIdx "crop insurance Karnataka"
      PER_SUBQUERY_LIMIT) = [⟨"doc1", mkRat 1 10⟩] := by decide
  rw [hd, List.mergeSort_singleton]
  decide

theorem dictInsertResult_length_le (m : List SchemeResult)
    (r : SchemeResult) : (dictInsertResult m r).length ≤ m.length + 1 := by
  induction m with
  | nil => simp [dictInsertResult]
  | cons x m ih =>
      by_cases h : x.scheme_id = r.scheme_id
      · simp [dictInsertResult, h]
      · simp only [dictInsertResult, if_neg h, List.length_cons]
        omega

theorem dedupeById_length_le (rs : List SchemeResult) :
    (dedupeById rs).length ≤ rs.length := by
  induction rs using List.reverseRecOn with
  | nil => simp [dedupeById]
  | append_singleton rs r ih =>
      rw [dedupeById_concat]
      have h := dictInsertResult_length_le (dedupeById rs) r
      simp only [List.length_append, List.length_cons, List.length_nil]
      omega

theorem flatMap_queryDb_length (idx : String → List SchemeResult)
    (qs : List String) :
    (qs.flatMap (fun sq => query_db idx sq PER_SUBQUERY_LIMIT)).length ≤
      qs.length * PER_SUBQUERY_LIMIT := by
  induction qs with
  | nil => simp
  | cons q qs ih =>
      have h1 : (query_db idx q PER_SUBQUERY_LIMIT).length ≤
          PER_SUBQUERY_LIMIT := by
        simp [query_db, List.length_take]
      simp only [List.flatMap_cons, List.length_append, List.length_cons,
        PER_SUBQUERY_LIMIT] at *
      omega

/-- C9 (amended): the per-subquery candidate count is the fixed constant 3,
independent of the caller top_k — retrieval reads only the first 3 hits of
each subquery, and the result can never exceed 3 entries per subquery.
The constant is not ≥ top_k in general: the repository calls with
top_k = 5 > 3, where deduplication-free results are already capped at 3. -/
theorem candidate_count_fixed (expand : String → Except String String)
    (idx idx2 : String → List SchemeResult) (query : String) (k : Int)
    (h : ∀ subquery, (idx subquery).take PER_SUBQUERY_LIMIT =
      (idx2 subquery).take PER_SUBQUERY_LIMIT) :
    search_schemes expand idx query k = search_schemes expand idx2 query k ∧
    (search_schemes expand idx query k).length ≤
      (rewrite_query expand query).length * PER_SUBQUERY_LIMIT := by
  have hm : mergedResults expand idx query =
      mergedResults expand idx2 query := by
    simp only [mergedResults, query_db, List.flatMap]
    congr 1
    exact List.map_congr_left (fun a _ => h a)
  constructor
  · simp [search_schemes, rankedResults, uniqueResults, hm]
  · have h1 : (search_schemes expand idx query k).length ≤
        (rankedResults expand idx query).length := by
      have hss : search_schemes expand idx query k =
          pyslice (rankedResults expand idx query) k := rfl
      rw [hss]
      unfold pyslice
      split
      · exact (List.take_sublist _ _).length_le
      · exact (List.take_sublist _ _).length_le
    have h2 : (rankedResults expand idx query).length =
        (uniqueResults expand idx query).length := by
      simp [rankedResults, List.length_mergeSort]
    have h3 : (uniqueResults expand idx query).length ≤
        (mergedResults expand idx query).length :=
      dedupeById_length_le (mergedResults expand idx query)
    have h4 : (mergedResults expand idx query).length ≤
        (rewrite_query expand query).length * PER_SUBQUERY_LIMIT :=
      flatMap_queryDb_length idx (rewrite_query expand query)
    omega

/-- Witness for C9 at the five-document fixture. -/
theorem candidate_count_fixed_witness :
    search_schemes exErrExpand fiveIdx "q" 5 =
      search_schemes exErrExpand fiveIdx "q" 5 ∧
    (search_schemes exErrExpand fiveIdx "q" 5).length ≤
      (rewrite_query exErrExpand "q").length * PER_SUBQUERY_LIMIT :=
  candidate_count_fixed exErrExpand fiveIdx fiveIdx "q" 5 (fun _ => rfl)

/-- C9 counterexample: the repository itself calls with top_k = 5 while the
per-subquery candidate count is 3; over an index holding five distinct
documents the result is capped at 3 < top_k, so the count is not ≥ top_k
and deduplication-free availability of 5 documents does not yield 5. -/
theorem per_subquery_limit_counterexample :
    ¬ (5 ≤ PER_SUBQUERY_LIMIT) ∧
    ((fiveIdx "q").map (·.scheme_id)).Nodup ∧
    (fiveIdx "q").length = 5 ∧
    (search_schemes exErrExpand fiveIdx "q" 5).length = 3 := by
  have hs : search_schemes exErrExpand fiveIdx "q" 5 =
      pyslice [(⟨"d1", mkRat 1 10⟩ : SchemeResult), ⟨"d2", mkRat 2 10⟩,
        ⟨"d3", mkRat 3 10⟩] 5 :=
    search_schemes_eval _ _ _ _ _ (by decide) (by decide)
  rw [hs]
  refine ⟨by decide, by decide, by decide, by decide⟩

end ProjectKisan
